import Mathlib

/-!
# Verification of `migrations/2_deploy_external.js`

A shallow embedding of the deployment script: the fixed-point helpers
`toRay`, `toRad`, `subBN` over an exact model of JavaScript numbers, and the
body of the exported migration as a function from a host and an address table
to the sequence of host calls it issues and its outcome.
-/

namespace Vault

/-! ## JavaScript numbers

Every finite non-negative IEEE-754 double is an integer multiple of `2^-1074`.
A finite number is stored as that integer, so `fin n` denotes `n / 2^1074`.
The script only multiplies non-negative numbers, hence no sign and no NaN. -/

/-- A non-negative JavaScript number: `fin n` is the double `n * 2^-1074`,
`inf` is `Infinity`. -/
inductive JSNumber where
  | fin (n : Nat)
  | inf
deriving DecidableEq, Repr

/-- Round the rational `num / den` to an integer, ties to even. -/
def roundHalfEven (num den : Nat) : Nat :=
  let q := num / den
  let r := num % den
  if 2 * r < den then q
  else if den < 2 * r then q + 1
  else if q % 2 = 0 then q else q + 1

/-- Number of binary digits of `n`, computed with `fuel` halving steps. -/
def bitsAux : Nat → Nat → Nat
  | 0, _ => 0
  | fuel + 1, n => if n = 0 then 0 else bitsAux fuel (n / 2) + 1

/-- Number of binary digits of `n` (`0` for `0`). -/
def bitLength (n : Nat) : Nat := bitsAux n n

/-- The double nearest to `num / den` (counted in units of `2^-1074`), ties to
even: a value whose integer part has more than 53 bits keeps its leading 53
bits, and a result of `2^1024` or more is `Infinity`. -/
def roundDouble (num den : Nat) : JSNumber :=
  let s := bitLength (num / den) - 53
  let y := roundHalfEven num (den * 2 ^ s) * 2 ^ s
  if y < 2 ^ 2098 then JSNumber.fin y else JSNumber.inf

/-- The JavaScript number denoted by the decimal literal `k / 10^d`. -/
def ofDecimal (k d : Nat) : JSNumber :=
  roundDouble (k * 2 ^ 1074) (10 ^ d)

/-- JavaScript `*` on non-negative numbers: the exact product, rounded. -/
def JSNumber.mul : JSNumber → JSNumber → JSNumber
  | JSNumber.fin a, JSNumber.fin b => roundDouble (a * b) (2 ^ 1074)
  | _, _ => JSNumber.inf

/-- The value of `10 ** 10`. -/
def tenPow10 : JSNumber := ofDecimal (10 ^ 10) 0

/-! ## ethers `BigNumber` -/

/-- Faults raised by `BigNumber.from` on a JavaScript number. -/
inductive Fault where
  | underflow
  | overflow
deriving DecidableEq, Repr

/-- The largest number `BigNumber.from` accepts is below `0x1fffffffffffff`. -/
def MAX_SAFE : Nat := 2 ^ 53 - 1

/-- `BigNumber.from(value)` for a JavaScript number, as ethers defines it: a
number with a fractional part (`value % 1` non-zero) is an `underflow` fault,
a number at or above `MAX_SAFE` is an `overflow` fault, and any other number
is converted exactly. -/
def bigNumberFrom : JSNumber → Except Fault Int
  | JSNumber.inf => Except.error Fault.overflow
  | JSNumber.fin n =>
    if n % 2 ^ 1074 ≠ 0 then Except.error Fault.underflow
    else if MAX_SAFE ≤ n / 2 ^ 1074 then Except.error Fault.overflow
    else Except.ok (Int.ofNat (n / 2 ^ 1074))

/-- `toRay(value)`: `BigNumber.from(value * 10 ** 10).mul(10^17)`. -/
def toRay (value : JSNumber) : Except Fault Int := do
  let ten ← bigNumberFrom (ofDecimal 10 0)
  let seventeen ← bigNumberFrom (ofDecimal 17 0)
  let exponent := ten ^ seventeen.toNat
  let scaled ← bigNumberFrom (value.mul tenPow10)
  pure (scaled * exponent)

/-- `toRad(value)`: `BigNumber.from(value * 10 ** 10).mul(10^35)`. -/
def toRad (value : JSNumber) : Except Fault Int := do
  let ten ← bigNumberFrom (ofDecimal 10 0)
  let thirtyFive ← bigNumberFrom (ofDecimal 35 0)
  let exponent := ten ^ thirtyFive.toNat
  let scaled ← bigNumberFrom (value.mul tenPow10)
  pure (scaled * exponent)

/-- `subBN(x, y)`: subtraction of two `BigNumber`s. -/
def subBN (x y : Int) : Int := x - y

instance {ε α : Type} [DecidableEq ε] [DecidableEq α] : DecidableEq (Except ε α) := fun a b =>
  match a, b with
  | Except.ok x, Except.ok y =>
    if h : x = y then isTrue (by rw [h]) else isFalse (fun e => h (by cases e; rfl))
  | Except.error x, Except.error y =>
    if h : x = y then isTrue (by rw [h]) else isFalse (fun e => h (by cases e; rfl))
  | Except.ok _, Except.error _ => isFalse (fun e => by cases e)
  | Except.error _, Except.ok _ => isFalse (fun e => by cases e)

/-! ## Host interface -/

/-- The contract artifacts the script requires, named by its constants
(`Weth` is the artifact `WETH9`, `Dai` the artifact `TestDai`). -/
inductive Contract where
  | Migrations | Vat | GemJoin | DaiJoin | Weth | Dai | Pot | End | Chai
deriving DecidableEq, Repr

/-- JavaScript values handed to the host. -/
inductive Val where
  | undefined
  | str (s : String)
  | num (n : JSNumber)
  | big (n : Int)
deriving DecidableEq, Repr

/-- JavaScript truthiness, as tested by `&&`. -/
def Val.truthy : Val → Bool
  | Val.undefined => false
  | Val.str s => s != ""
  | Val.num n => n != JSNumber.fin 0
  | Val.big _ => true

/-- Two lower-case hexadecimal digits (or more) of a character code. -/
def hexOfCode (code : Nat) : List Char :=
  let n := Nat.toDigits 16 code
  if n.length < 2 then '0' :: n else n

/-- `web3.utils.fromAscii(str)`: `0x` followed by the hex code of each character. -/
def fromAscii (str : String) : String :=
  "0x" ++ String.mk (str.toList.flatMap fun c => hexOfCode c.toNat)

/-- One operation issued to the host, with the host's answer: a deployment
(`deployer.deploy(X, ...args)` followed by `X.deployed()`) answers with the
address of the instance, or `none` when it is rejected; a method call on a
deployed instance is confirmed or rejected. -/
inductive Event where
  | deploy (artifact : Contract) (args : List Val) (address : Option String)
  | send (target : Contract) (method : String) (args : List Val) (confirmed : Bool)
deriving DecidableEq, Repr

/-- The execution host: its answer to an operation may depend on everything
issued before. -/
structure Host where
  deploy : List Event → Contract → List Val → Option String
  send : List Event → Contract → String → List Val → Bool

/-- Ways the script stops early. -/
inductive Failure where
  /-- `BigNumber.from` raised while deriving a parameter. -/
  | fault (f : Fault)
  /-- A property was read on `undefined` (`fixed_addrs[network].vatAddress`). -/
  | typeError
  /-- The host rejected the operation. -/
  | rejected (e : Event)
deriving DecidableEq, Repr

/-- What a run leaves behind: the operations issued, in order, and either the
value computed or the failure that stopped it. -/
structure Outcome (α : Type) where
  trace : List Event
  result : Except Failure α

/-- A script fragment: continues from the operations issued so far. -/
def Script (α : Type) : Type := List Event → Outcome α

/-- Return a value without issuing anything. -/
def Script.pure {α : Type} (a : α) : Script α := fun t => ⟨t, Except.ok a⟩

/-- Sequencing of awaited steps: a failure stops the script, the operations
already issued stay issued. -/
def Script.bind {α β : Type} (m : Script α) (f : α → Script β) : Script β := fun t =>
  match m t with
  | ⟨t1, Except.ok a⟩ => f a t1
  | ⟨t1, Except.error e⟩ => ⟨t1, Except.error e⟩

instance : Monad Script where
  pure := Script.pure
  bind := Script.bind

/-- Stop with a failure. -/
def Script.fail {α : Type} (e : Failure) : Script α := fun t => ⟨t, Except.error e⟩

/-- Evaluate a parameter derivation; a fault stops the script. -/
def Script.derive (x : Except Fault Int) : Script Int :=
  match x with
  | Except.ok v => Script.pure v
  | Except.error f => Script.fail (Failure.fault f)

/-- `await deployer.deploy(X, ...args)` then `(await X.deployed()).address`. -/
def Script.deploy (h : Host) (artifact : Contract) (args : List Val) : Script String := fun t =>
  match h.deploy t artifact args with
  | some a => ⟨t ++ [Event.deploy artifact args (some a)], Except.ok a⟩
  | none => ⟨t ++ [Event.deploy artifact args none],
      Except.error (Failure.rejected (Event.deploy artifact args none))⟩

/-- `await x.method(...args)` on a deployed instance. -/
def Script.send (h : Host) (target : Contract) (method : String) (args : List Val) :
    Script Unit := fun t =>
  if h.send t target method args then
    ⟨t ++ [Event.send target method args true], Except.ok ()⟩
  else
    ⟨t ++ [Event.send target method args false],
      Except.error (Failure.rejected (Event.send target method args false))⟩

/-! ## The migration -/

/-- One entry of `fixed_addrs.json`; an absent property reads as `undefined`. -/
structure Entry where
  vatAddress : Val
  wethAddress : Val
  wethJoinAddress : Val
  daiAddress : Val
  daiJoinAddress : Val
  potAddress : Val
  endAddress : Val
  chaiAddress : Val
deriving DecidableEq, Repr

/-- The eight address variables declared at the top of the migration. -/
structure Vars where
  vatAddress : Val
  wethAddress : Val
  wethJoinAddress : Val
  daiAddress : Val
  daiJoinAddress : Val
  potAddress : Val
  endAddress : Val
  chaiAddress : Val
deriving DecidableEq, Repr

/-- The `network === "development"` branch. -/
def bootstrap (h : Host) : Script Vars := do
  let WETH := Val.str (fromAscii "ETH-A")
  let Line := Val.str (fromAscii "Line")
  let spotName := Val.str (fromAscii "spot")
  let linel := Val.str (fromAscii "line")
  let limits ← Script.derive (toRad (ofDecimal 10000 0))
  let spot ← Script.derive (toRay (ofDecimal 150 0))
  let vat ← Script.deploy h Contract.Vat []
  let vatAddress := Val.str vat
  Script.send h Contract.Vat "init" [WETH]
  Script.send h Contract.Vat "file" [WETH, spotName, Val.big spot]
  Script.send h Contract.Vat "file" [WETH, linel, Val.big limits]
  Script.send h Contract.Vat "file" [Line, Val.big limits]
  let weth ← Script.deploy h Contract.Weth []
  let wethAddress := Val.str weth
  let wethJoin ← Script.deploy h Contract.GemJoin [vatAddress, WETH, wethAddress]
  let wethJoinAddress := Val.str wethJoin
  let dai ← Script.deploy h Contract.Dai [Val.num (ofDecimal 0 0)]
  let daiAddress := Val.str dai
  let daiJoin ← Script.deploy h Contract.DaiJoin [vatAddress, daiAddress]
  let daiJoinAddress := Val.str daiJoin
  let pot ← Script.deploy h Contract.Pot [vatAddress]
  let potAddress := Val.str pot
  let end_ ← Script.deploy h Contract.End []
  let endAddress := Val.str end_
  Script.send h Contract.End "file" [Val.str (fromAscii "vat"), vatAddress]
  Script.send h Contract.Vat "rely" [vatAddress]
  Script.send h Contract.Vat "rely" [wethJoinAddress]
  Script.send h Contract.Vat "rely" [daiJoinAddress]
  Script.send h Contract.Vat "rely" [potAddress]
  Script.send h Contract.Vat "rely" [endAddress]
  let rate ← Script.derive (toRay (ofDecimal 125 2))
  let chi ← Script.derive (toRay (ofDecimal 12 1))
  let one ← Script.derive (toRay (ofDecimal 1 0))
  Script.send h Contract.Vat "fold" [WETH, vatAddress, Val.big (subBN rate one)]
  Script.send h Contract.Pot "setChi" [Val.big chi]
  pure ⟨vatAddress, wethAddress, wethJoinAddress, daiAddress, daiJoinAddress,
    potAddress, endAddress, Val.undefined⟩

/-- The `else` branch: every address is read from `fixed_addrs[network]`;
reading a property of a missing entry raises. -/
def reuse (fixed_addrs : String → Option Entry) (network : String) : Script Vars :=
  match fixed_addrs network with
  | none => Script.fail Failure.typeError
  | some e =>
    pure ⟨e.vatAddress, e.wethAddress, e.wethJoinAddress, e.daiAddress, e.daiJoinAddress,
      e.potAddress, e.endAddress,
      if e.chaiAddress.truthy then e.chaiAddress else Val.undefined⟩

/-- The condition guarding the reuse of a recorded Chai address. -/
def chaiGuard (network : String) : Bool :=
  network == "mainnet" && network == "kovan" && network == "kovan-fork"

/-- The Chai step: reuse the recorded address under the guard, else deploy. -/
def chaiStep (h : Host) (fixed_addrs : String → Option Entry) (network : String)
    (v : Vars) : Script Vars :=
  if chaiGuard network then
    match fixed_addrs network with
    | none => Script.fail Failure.typeError
    | some e => pure { v with chaiAddress := e.chaiAddress }
  else do
    let chai ← Script.deploy h Contract.Chai
      [v.vatAddress, v.potAddress, v.daiJoinAddress, v.daiAddress]
    pure { v with chaiAddress := Val.str chai }

/-- The object `deployedExternal`, as its properties in insertion order. -/
def deployedExternal (v : Vars) : List (String × Val) :=
  [("Vat", v.vatAddress), ("Weth", v.wethAddress), ("WethJoin", v.wethJoinAddress),
   ("Dai", v.daiAddress), ("DaiJoin", v.daiJoinAddress), ("Pot", v.potAddress),
   ("End", v.endAddress), ("Chai", v.chaiAddress)]

/-- The loop `for (name in deployedExternal) await migrations.register(...)`. -/
def commit (h : Host) : List (String × Val) → Script Unit
  | [] => pure ()
  | (name, address) :: rest => do
    Script.send h Contract.Migrations "register" [Val.str (fromAscii name), address]
    commit h rest

/-- The exported migration, from the resolved `migrations` instance on: it
returns the object it logs. -/
def migration (h : Host) (fixed_addrs : String → Option Entry) (network : String) :
    Script (List (String × Val)) := do
  let v ← if network = "development" then bootstrap h else reuse fixed_addrs network
  let v ← chaiStep h fixed_addrs network v
  commit h (deployedExternal v)
  pure (deployedExternal v)

/-- Run the migration on a host where nothing has been issued yet. -/
def run (h : Host) (fixed_addrs : String → Option Entry) (network : String) :
    Outcome (List (String × Val)) :=
  migration h fixed_addrs network []

/-! ## The operations of a run, laid out -/

/-- The host's answer replaced by a rejection. -/
def Event.reject : Event → Event
  | Event.deploy c args _ => Event.deploy c args none
  | Event.send c m args _ => Event.send c m args false

/-- The first `k` operations of `plan` confirmed, the next one rejected. -/
def stopAt : List Event → Nat → List Event
  | [], _ => []
  | e :: _, 0 => [e.reject]
  | e :: plan, k + 1 => e :: stopAt plan k

/-- The failure raised when operation `k` of `plan` is rejected. -/
def failureAt : List Event → Nat → Failure
  | [], _ => Failure.typeError
  | e :: _, 0 => Failure.rejected e.reject
  | _ :: plan, k + 1 => failureAt plan k

/-- The outcome `out` of a script started after `t` follows `plan`: either
every operation of `plan` was issued and confirmed and the script returned
`res`, or the host rejected operation `k` and the script stopped there. -/
def Follows {α : Type} (out : Outcome α) (t : List Event) (plan : List Event) (res : α) :
    Prop :=
  (out.trace = t ++ plan ∧ out.result = Except.ok res) ∨
  (∃ k, k < plan.length ∧ out.trace = t ++ stopAt plan k ∧
    out.result = Except.error (failureAt plan k))

/-- The operations `tr` were issued along `plan`: all of it, or its first `k`
operations confirmed and the next one rejected. -/
def Issued (plan tr : List Event) : Prop :=
  tr = plan ∨ ∃ k, k < plan.length ∧ tr = stopAt plan k

/-- The operations `tr` are a start of `plan`: its first `k` operations
confirmed, possibly followed by the next one rejected. -/
def Started (plan tr : List Event) : Prop :=
  ∃ k, tr = plan.take k ∨ (k < plan.length ∧ tr = stopAt plan k)

/-- A made-up address for each artifact. -/
def Contract.label : Contract → String
  | Contract.Migrations => "0xM"
  | Contract.Vat => "0xA1"
  | Contract.GemJoin => "0xA2"
  | Contract.DaiJoin => "0xA3"
  | Contract.Weth => "0xA4"
  | Contract.Dai => "0xA5"
  | Contract.Pot => "0xA6"
  | Contract.End => "0xA7"
  | Contract.Chai => "0xA8"

/-- A host that confirms everything and deploys each artifact at its label. -/
def confirmingHost : Host where
  deploy := fun _ c _ => some c.label
  send := fun _ _ _ _ => true

/-- A complete entry, recorded Chai address included. -/
def fullEntry : Entry :=
  ⟨Val.str "0xB1", Val.str "0xB2", Val.str "0xB3", Val.str "0xB4", Val.str "0xB5",
    Val.str "0xB6", Val.str "0xB7", Val.str "0xB8"⟩

/-- An entry without `vatAddress` and without `chaiAddress`. -/
def lackingEntry : Entry :=
  ⟨Val.undefined, Val.str "0xB2", Val.str "0xB3", Val.str "0xB4", Val.str "0xB5",
    Val.str "0xB6", Val.str "0xB7", Val.undefined⟩

/-- A table with a complete entry for `mainnet`, one lacking addresses for `kovan`. -/
def sampleTable : String → Option Entry := fun network =>
  if network = "mainnet" then some fullEntry
  else if network = "kovan" then some lackingEntry
  else none

/-- Wherever it is started, the script `m` follows a plan and returns a result
related by `Q`. -/
def Shape {α : Type} (m : Script α) (Q : List Event → α → Prop) : Prop :=
  ∀ t, ∃ plan res, Q plan res ∧ Follows (m t) t plan res

/-- The operations of a bootstrap in which the host confirms everything and
answers the seven deployments with the given addresses. -/
def bootstrapPlan (vat weth wethJoin dai daiJoin pot end_ : String) : List Event :=
  [Event.deploy Contract.Vat [] (some vat),
   Event.send Contract.Vat "init" [Val.str (fromAscii "ETH-A")] true,
   Event.send Contract.Vat "file"
     [Val.str (fromAscii "ETH-A"), Val.str (fromAscii "spot"), Val.big (150 * 10 ^ 27)] true,
   Event.send Contract.Vat "file"
     [Val.str (fromAscii "ETH-A"), Val.str (fromAscii "line"), Val.big (10000 * 10 ^ 45)] true,
   Event.send Contract.Vat "file" [Val.str (fromAscii "Line"), Val.big (10000 * 10 ^ 45)] true,
   Event.deploy Contract.Weth [] (some weth),
   Event.deploy Contract.GemJoin [Val.str vat, Val.str (fromAscii "ETH-A"), Val.str weth]
     (some wethJoin),
   Event.deploy Contract.Dai [Val.num (JSNumber.fin 0)] (some dai),
   Event.deploy Contract.DaiJoin [Val.str vat, Val.str dai] (some daiJoin),
   Event.deploy Contract.Pot [Val.str vat] (some pot),
   Event.deploy Contract.End [] (some end_),
   Event.send Contract.End "file" [Val.str (fromAscii "vat"), Val.str vat] true,
   Event.send Contract.Vat "rely" [Val.str vat] true,
   Event.send Contract.Vat "rely" [Val.str wethJoin] true,
   Event.send Contract.Vat "rely" [Val.str daiJoin] true,
   Event.send Contract.Vat "rely" [Val.str pot] true,
   Event.send Contract.Vat "rely" [Val.str end_] true,
   Event.send Contract.Vat "fold"
     [Val.str (fromAscii "ETH-A"), Val.str vat, Val.big (25 * 10 ^ 25)] true,
   Event.send Contract.Pot "setChi" [Val.big (12 * 10 ^ 26)] true]

/-- The operations of the Chai step and of the commit loop when the host
confirms everything and deploys Chai at `chai`. -/
def commitPlan (v : Vars) (chai : String) : List Event :=
  [Event.deploy Contract.Chai [v.vatAddress, v.potAddress, v.daiJoinAddress, v.daiAddress]
     (some chai),
   Event.send Contract.Migrations "register" [Val.str (fromAscii "Vat"), v.vatAddress] true,
   Event.send Contract.Migrations "register" [Val.str (fromAscii "Weth"), v.wethAddress] true,
   Event.send Contract.Migrations "register"
     [Val.str (fromAscii "WethJoin"), v.wethJoinAddress] true,
   Event.send Contract.Migrations "register" [Val.str (fromAscii "Dai"), v.daiAddress] true,
   Event.send Contract.Migrations "register"
     [Val.str (fromAscii "DaiJoin"), v.daiJoinAddress] true,
   Event.send Contract.Migrations "register" [Val.str (fromAscii "Pot"), v.potAddress] true,
   Event.send Contract.Migrations "register" [Val.str (fromAscii "End"), v.endAddress] true,
   Event.send Contract.Migrations "register" [Val.str (fromAscii "Chai"), Val.str chai] true]

/-- The address variables after a confirmed bootstrap. -/
def bootstrapVars (vat weth wethJoin dai daiJoin pot end_ : String) : Vars :=
  ⟨Val.str vat, Val.str weth, Val.str wethJoin, Val.str dai, Val.str daiJoin, Val.str pot,
    Val.str end_, Val.undefined⟩

/-- The address variables after reading the entry of the table. -/
def reuseVars (e : Entry) : Vars :=
  ⟨e.vatAddress, e.wethAddress, e.wethJoinAddress, e.daiAddress, e.daiJoinAddress,
    e.potAddress, e.endAddress, if e.chaiAddress.truthy then e.chaiAddress else Val.undefined⟩

/-- Calls of `migrations.register`. -/
def Event.isRegister : Event → Bool
  | Event.send c m _ _ => c == Contract.Migrations && m == "register"
  | Event.deploy _ _ _ => false

/-- Deployments. -/
def Event.isDeploy : Event → Bool
  | Event.deploy _ _ _ => true
  | Event.send _ _ _ _ => false

/-- Deployments of the seven core components (all but Chai). -/
def Event.isCoreDeploy : Event → Bool
  | Event.deploy c _ _ => c != Contract.Chai
  | Event.send _ _ _ _ => false

/-- Deployments of Chai. -/
def Event.isChaiDeploy : Event → Bool
  | Event.deploy c _ _ => c == Contract.Chai
  | Event.send _ _ _ _ => false

/-- Configuration calls on the vault: `vat.init` and `vat.file`. -/
def Event.isVatConfig : Event → Bool
  | Event.send c m _ _ => c == Contract.Vat && (m == "init" || m == "file")
  | Event.deploy _ _ _ => false

/-- The configuration call on the settlement module: `end.file`. -/
def Event.isEndConfig : Event → Bool
  | Event.send c m _ _ => c == Contract.End && m == "file"
  | Event.deploy _ _ _ => false

/-- Calls of `vat.rely`, the grants on the vault. -/
def Event.isRely : Event → Bool
  | Event.send c m _ _ => c == Contract.Vat && m == "rely"
  | Event.deploy _ _ _ => false

/-- The two calls of the simulation step, `vat.fold` and `pot.setChi`. -/
def Event.isSimulation : Event → Bool
  | Event.send c m _ _ =>
    (c == Contract.Vat && m == "fold") || (c == Contract.Pot && m == "setChi")
  | Event.deploy _ _ _ => false

/-- The register call of the commit loop for one property of the object. -/
def registerCall (p : String × Val) : Event :=
  Event.send Contract.Migrations "register" [Val.str (fromAscii p.1), p.2] true

/-! ## Parameter values used by the script -/

theorem toRad_10000 : toRad (ofDecimal 10000 0) = Except.ok (10000 * 10 ^ 45) := by decide!

theorem toRay_150 : toRay (ofDecimal 150 0) = Except.ok (150 * 10 ^ 27) := by decide!

theorem toRay_1_25 : toRay (ofDecimal 125 2) = Except.ok (125 * 10 ^ 25) := by decide!

theorem toRay_1_2 : toRay (ofDecimal 12 1) = Except.ok (12 * 10 ^ 26) := by decide!

theorem toRay_1 : toRay (ofDecimal 1 0) = Except.ok (10 ^ 27) := by decide!

/-! ## Rounding to a double -/

theorem bitsAux_zero (fuel : Nat) : bitsAux fuel 0 = 0 := by
  cases fuel <;> simp [bitsAux]

theorem bitsAux_spec (fuel n : Nat) (h : n ≤ fuel) :
    n < 2 ^ bitsAux fuel n ∧ (n ≠ 0 → 2 ^ (bitsAux fuel n - 1) ≤ n) := by
  induction fuel generalizing n with
  | zero =>
    have : n = 0 := by omega
    subst this
    simp [bitsAux]
  | succ f ih =>
    by_cases hn : n = 0
    · subst hn
      simp [bitsAux]
    · have ih' := ih (n / 2) (by omega)
      simp only [bitsAux, hn, if_false]
      constructor
      · have := ih'.1
        rw [pow_succ]
        omega
      · intro _
        simp only [Nat.add_sub_cancel]
        by_cases h2 : n / 2 = 0
        · rw [h2, bitsAux_zero]
          simp
          omega
        · have h3 := ih'.2 h2
          have h4 := ih'.1
          obtain ⟨c, hc⟩ : ∃ c, bitsAux f (n / 2) = c + 1 := by
            cases hb : bitsAux f (n / 2) with
            | zero => rw [hb] at h4; simp at h4; omega
            | succ c => exact ⟨c, rfl⟩
          rw [hc] at h3 ⊢
          simp only [Nat.add_sub_cancel] at h3
          rw [pow_succ]
          omega

theorem bitLength_lt (n : Nat) : n < 2 ^ bitLength n :=
  (bitsAux_spec n n (Nat.le_refl n)).1

theorem bitLength_le (n : Nat) (hn : n ≠ 0) : 2 ^ (bitLength n - 1) ≤ n :=
  (bitsAux_spec n n (Nat.le_refl n)).2 hn

theorem roundHalfEven_exact (q den : Nat) (hden : 0 < den) :
    roundHalfEven (q * den) den = q := by
  simp [roundHalfEven, Nat.mul_div_cancel _ hden, hden]

theorem roundHalfEven_bound (num den : Nat) (hden : 0 < den) :
    2 * (roundHalfEven num den * den) ≤ 2 * num + den ∧
    2 * num ≤ 2 * (roundHalfEven num den * den) + den := by
  have hdm := Nat.div_add_mod num den
  have hlt := Nat.mod_lt num hden
  have hmul : den * (num / den) = num / den * den := Nat.mul_comm _ _
  unfold roundHalfEven
  simp only
  split_ifs with h1 h2 h3
  · constructor <;> omega
  · rw [Nat.add_mul]; constructor <;> omega
  · constructor <;> omega
  · rw [Nat.add_mul]; constructor <;> omega

/-- A number with at most 53 significant bits, below `2^1024`, is a double:
rounding leaves it unchanged. -/
theorem roundDouble_exact (m j den : Nat) (hm : m < 2 ^ 53) (hlt : m * 2 ^ j < 2 ^ 2098)
    (hden : 0 < den) : roundDouble (m * 2 ^ j * den) den = JSNumber.fin (m * 2 ^ j) := by
  unfold roundDouble
  simp only [Nat.mul_div_cancel _ hden]
  obtain ⟨c, hc⟩ : 2 ^ (bitLength (m * 2 ^ j) - 53) ∣ m * 2 ^ j := by
    by_cases h0 : m * 2 ^ j = 0
    · rw [h0]; exact dvd_zero _
    · have hle := bitLength_le _ h0
      have hlt2 : m * 2 ^ j < 2 ^ (53 + j) := by
        rw [pow_add]
        exact Nat.mul_lt_mul_of_pos_right hm (Nat.two_pow_pos j)
      have hb : bitLength (m * 2 ^ j) - 1 < 53 + j :=
        (Nat.pow_lt_pow_iff_right (by norm_num : 1 < 2)).mp (lt_of_le_of_lt hle hlt2)
      exact Dvd.dvd.mul_left (Nat.pow_dvd_pow 2 (by omega)) m
  generalize bitLength (m * 2 ^ j) - 53 = s at hc ⊢
  generalize m * 2 ^ j = N at hc hlt ⊢
  subst hc
  have hpos : 0 < den * 2 ^ s := Nat.mul_pos hden (Nat.two_pow_pos s)
  have hnum : 2 ^ s * c * den = c * (den * 2 ^ s) := by ring
  rw [hnum, roundHalfEven_exact _ _ hpos, Nat.mul_comm c, if_pos hlt]
theorem tenPow10_eq : tenPow10 = JSNumber.fin (10 ^ 10 * 2 ^ 1074) := by decide!

theorem bigNumberFrom_ten : bigNumberFrom (ofDecimal 10 0) = Except.ok 10 := by decide!

theorem bigNumberFrom_seventeen : bigNumberFrom (ofDecimal 17 0) = Except.ok 17 := by decide!

theorem bigNumberFrom_thirtyFive : bigNumberFrom (ofDecimal 35 0) = Except.ok 35 := by decide!

theorem toRay_of_scaled (v : JSNumber) (K : Int)
    (h : bigNumberFrom (v.mul tenPow10) = Except.ok K) : toRay v = Except.ok (K * 10 ^ 17) := by
  unfold toRay
  rw [bigNumberFrom_ten, bigNumberFrom_seventeen, h]
  rfl

theorem toRad_of_scaled (v : JSNumber) (K : Int)
    (h : bigNumberFrom (v.mul tenPow10) = Except.ok K) : toRad v = Except.ok (K * 10 ^ 35) := by
  unfold toRad
  rw [bigNumberFrom_ten, bigNumberFrom_thirtyFive, h]
  rfl

theorem toRay_of_fault (v : JSNumber) (f : Fault)
    (h : bigNumberFrom (v.mul tenPow10) = Except.error f) : toRay v = Except.error f := by
  unfold toRay
  rw [bigNumberFrom_ten, bigNumberFrom_seventeen, h]
  rfl

theorem toRad_of_fault (v : JSNumber) (f : Fault)
    (h : bigNumberFrom (v.mul tenPow10) = Except.error f) : toRad v = Except.error f := by
  unfold toRad
  rw [bigNumberFrom_ten, bigNumberFrom_thirtyFive, h]
  rfl

theorem mul_tenPow10 (n : Nat) :
    (JSNumber.fin n).mul tenPow10 = roundDouble (n * (10 ^ 10 * 2 ^ 1074)) (2 ^ 1074) := by
  rw [tenPow10_eq]
  rfl

theorem bigNumberFrom_integer (K : Nat) (hK : K < MAX_SAFE) :
    bigNumberFrom (JSNumber.fin (K * 2 ^ 1074)) = Except.ok (K : Int) := by
  have hpos : 0 < 2 ^ 1074 := pow_pos (by norm_num) 1074
  simp only [bigNumberFrom, Nat.mul_mod_left, Nat.mul_div_cancel _ hpos, ne_eq,
    not_true_eq_false, if_false, Nat.not_le.mpr hK]
  rfl

theorem max_safe_lt : MAX_SAFE < 2 ^ 53 := by decide

theorem mantissa_lt (m j : Nat) (hm : m < 2 ^ 53) (hj : 53 + j ≤ 2098) :
    m * 2 ^ j < 2 ^ 2098 :=
  calc m * 2 ^ j < 2 ^ 53 * 2 ^ j := Nat.mul_lt_mul_of_pos_right hm (pow_pos (by norm_num) j)
    _ = 2 ^ (53 + j) := (pow_add 2 53 j).symm
    _ ≤ 2 ^ 2098 := Nat.pow_le_pow_right (by norm_num) hj

/-- When the exact product `v * 10^10` is an integer `K` below `MAX_SAFE`, the
double product is that integer. -/
theorem mul_tenPow10_exact (n K : Nat) (hn : n * 10 ^ 10 = K * 2 ^ 1074) (hK : K < MAX_SAFE) :
    (JSNumber.fin n).mul tenPow10 = JSNumber.fin (K * 2 ^ 1074) := by
  rw [mul_tenPow10, ← Nat.mul_assoc, hn]
  exact roundDouble_exact K 1074 (2 ^ 1074) (lt_trans hK max_safe_lt)
    (mantissa_lt K 1074 (lt_trans hK max_safe_lt) (by norm_num)) (pow_pos (by norm_num) 1074)

theorem exact_is_double (n K : Nat) (hn : n * 10 ^ 10 = K * 2 ^ 1074) :
    ∃ m, m ≤ K ∧ n = m * 2 ^ 1064 := by
  have h10 : (10 : Nat) ^ 10 = 5 ^ 10 * 2 ^ 10 := by norm_num
  have h2 : (2 : Nat) ^ 1074 = 2 ^ 1064 * 2 ^ 10 := (pow_add 2 1064 10)
  have hcancel : n * 5 ^ 10 = K * 2 ^ 1064 := by
    have : n * 5 ^ 10 * 2 ^ 10 = K * 2 ^ 1064 * 2 ^ 10 := by
      rw [Nat.mul_assoc, ← h10, hn, h2, Nat.mul_assoc]
    exact Nat.eq_of_mul_eq_mul_right (pow_pos (by norm_num) 10) this
  have hcop : Nat.Coprime (5 ^ 10) (2 ^ 1064) := Nat.Coprime.pow 10 1064 (by decide)
  have hdvd : 5 ^ 10 ∣ K := hcop.dvd_of_dvd_mul_right ⟨n, by rw [← hcancel, Nat.mul_comm]⟩
  obtain ⟨m, hm⟩ := hdvd
  refine ⟨m, ?_, ?_⟩
  · rw [hm]
    exact Nat.le_mul_of_pos_left m (pow_pos (by norm_num) 10)
  · have : n * 5 ^ 10 = m * 2 ^ 1064 * 5 ^ 10 := by
      rw [hcancel, hm]; ring
    exact Nat.eq_of_mul_eq_mul_right (pow_pos (by norm_num) 10) this

theorem exponent_sum (d a b : Nat) (hd : d ≤ 10) (hb : b = 10 + a) : 10 - d + a + d = b := by
  omega

theorem scale_back (k d a b : Nat) (hab : 10 - d + a + d = b) :
    ((k * 10 ^ (10 - d) : Nat) : Int) * 10 ^ a * 10 ^ d = (k : Int) * 10 ^ b := by
  have h : (10 : Int) ^ (10 - d) * 10 ^ a * 10 ^ d = 10 ^ b := by
    rw [← pow_add, ← pow_add, hab]
  rw [Nat.cast_mul, Nat.cast_pow, Nat.cast_ofNat, ← h]
  ring

/-- C1, as the code has it: a decimal `k / 10^d` with at most 10 fractional
digits that is exactly a double (`n * 2^-1074`) and whose product with `10^10`
is below `MAX_SAFE` is converted without loss: `toRay` returns `r` with
`r / 10^27 = k / 10^d` and `toRad` returns `x` with `x / 10^45 = k / 10^d`. -/
theorem roundtrip_exact (k d n : Nat) (hd : d ≤ 10) (hexact : n * 10 ^ d = k * 2 ^ 1074)
    (hmag : k * 10 ^ (10 - d) < MAX_SAFE) :
    ofDecimal k d = JSNumber.fin n ∧
    ∃ r x : Int, toRay (ofDecimal k d) = Except.ok r ∧ r * 10 ^ d = k * 10 ^ 27 ∧
      toRad (ofDecimal k d) = Except.ok x ∧ x * 10 ^ d = k * 10 ^ 45 := by
  have hsplit : (10 : Nat) ^ 10 = 10 ^ d * 10 ^ (10 - d) := by
    rw [← pow_add, Nat.add_sub_cancel' hd]
  have hn : n * 10 ^ 10 = k * 10 ^ (10 - d) * 2 ^ 1074 := by
    rw [hsplit, ← Nat.mul_assoc, hexact, Nat.mul_right_comm]
  obtain ⟨m, hmK, hnm⟩ := exact_is_double n _ hn
  have hm53 : m < 2 ^ 53 := lt_of_le_of_lt hmK (lt_trans hmag max_safe_lt)
  have hof : ofDecimal k d = JSNumber.fin n := by
    unfold ofDecimal
    rw [← hexact, hnm]
    exact roundDouble_exact m 1064 (10 ^ d) hm53 (mantissa_lt m 1064 hm53 (by norm_num))
      (pow_pos (by norm_num) d)
  refine ⟨hof, ?_⟩
  have hscaled : bigNumberFrom ((JSNumber.fin n).mul tenPow10) =
      Except.ok ((k * 10 ^ (10 - d) : Nat) : Int) := by
    rw [mul_tenPow10_exact n _ hn hmag]
    exact bigNumberFrom_integer _ hmag
  refine ⟨((k * 10 ^ (10 - d) : Nat) : Int) * 10 ^ 17,
    ((k * 10 ^ (10 - d) : Nat) : Int) * 10 ^ 35, ?_, ?_, ?_, ?_⟩
  · rw [hof]
    exact toRay_of_scaled _ _ hscaled
  · exact scale_back k d 17 27 (exponent_sum d 17 27 hd rfl)
  · rw [hof]
    exact toRad_of_scaled _ _ hscaled
  · exact scale_back k d 35 45 (exponent_sum d 35 45 hd rfl)

/-- Witness of `roundtrip_exact`: `1.25` is the double `5 * 2^1072 * 2^-1074`. -/
theorem roundtrip_exact_witness :
    2 ≤ 10 ∧ (5 * 2 ^ 1072) * 10 ^ 2 = 125 * 2 ^ 1074 ∧ 125 * 10 ^ (10 - 2) < MAX_SAFE ∧
    ofDecimal 125 2 = JSNumber.fin (5 * 2 ^ 1072) :=
  ⟨by decide, by decide!, by decide!,
    (roundtrip_exact 125 2 (5 * 2 ^ 1072) (by decide) (by decide!) (by decide!)).1⟩

theorem bigNumberFrom_ok (y : JSNumber) (z : Int) (h : bigNumberFrom y = Except.ok z) :
    ∃ K : Nat, K < MAX_SAFE ∧ y = JSNumber.fin (K * 2 ^ 1074) ∧ z = (K : Int) := by
  cases y with
  | inf => simp [bigNumberFrom] at h
  | fin n =>
    simp only [bigNumberFrom] at h
    split_ifs at h with h1 h2
    refine ⟨n / 2 ^ 1074, Nat.not_le.mp h2, ?_, ?_⟩
    · have hdvd : 2 ^ 1074 ∣ n := Nat.dvd_of_mod_eq_zero (not_not.mp h1)
      rw [Nat.div_mul_cancel hdvd]
    · exact (Except.ok.inj h).symm

theorem spacing_absurd (P U KU X : Nat) (hU : 0 < U) (hKU : KU ≤ (2 ^ 53 - 2) * U)
    (hPX : P * 2 ^ 52 ≤ X) (hX : 2 * X ≤ 2 * KU + P) (hP : 2 * U ≤ P) : False := by
  norm_num at hKU hPX
  omega

theorem cancel_bounds (y X U P : Nat) (hU : 0 < U)
    (h1 : 2 * (y * U) ≤ 2 * (X * U) + U * P) (h2 : 2 * (X * U) ≤ 2 * (y * U) + U * P) :
    2 * y ≤ 2 * X + P ∧ 2 * X ≤ 2 * y + P := by
  constructor
  · refine Nat.le_of_mul_le_mul_right ?_ hU
    calc 2 * y * U = 2 * (y * U) := by ring
      _ ≤ 2 * (X * U) + U * P := h1
      _ = (2 * X + P) * U := by ring
  · refine Nat.le_of_mul_le_mul_right ?_ hU
    calc 2 * X * U = 2 * (X * U) := by ring
      _ ≤ 2 * (y * U) + U * P := h2
      _ = (2 * y + P) * U := by ring

/-- Rounding the integer-scaled value `X` to a double that is an integer `K`
below `MAX_SAFE` moves it by at most one half. -/
theorem round_to_integer_near (X u K : Nat) (hK : K < 2 ^ 53 - 1)
    (h : roundDouble (X * 2 ^ u) (2 ^ u) = JSNumber.fin (K * 2 ^ u)) :
    2 * (K * 2 ^ u) ≤ 2 * X + 2 ^ u ∧ 2 * X ≤ 2 * (K * 2 ^ u) + 2 ^ u := by
  have hU : 0 < 2 ^ u := pow_pos (by norm_num) u
  unfold roundDouble at h
  simp only [Nat.mul_div_cancel _ hU] at h
  split_ifs at h with hlt
  have hy := JSNumber.fin.inj h
  have hpos : 0 < 2 ^ u * 2 ^ (bitLength X - 53) :=
    Nat.mul_pos hU (pow_pos (by norm_num) _)
  obtain ⟨hb1, hb2⟩ := roundHalfEven_bound (X * 2 ^ u) (2 ^ u * 2 ^ (bitLength X - 53)) hpos
  generalize roundHalfEven (X * 2 ^ u) (2 ^ u * 2 ^ (bitLength X - 53)) = m at hy hb1 hb2
  have hmy : m * (2 ^ u * 2 ^ (bitLength X - 53)) = K * 2 ^ u * 2 ^ u := by
    rw [← hy]; ring
  rw [hmy] at hb1 hb2
  obtain ⟨hc1, hc2⟩ := cancel_bounds (K * 2 ^ u) X (2 ^ u) (2 ^ (bitLength X - 53)) hU hb1 hb2
  by_cases hs : bitLength X - 53 ≤ u
  · have hP : 2 ^ (bitLength X - 53) ≤ 2 ^ u := Nat.pow_le_pow_right (by norm_num) hs
    exact ⟨le_trans hc1 (Nat.add_le_add_left hP _), le_trans hc2 (Nat.add_le_add_left hP _)⟩
  · exfalso
    have hs' : u + 1 ≤ bitLength X - 53 := by omega
    have hP : 2 * 2 ^ u ≤ 2 ^ (bitLength X - 53) := by
      calc 2 * 2 ^ u = 2 ^ (u + 1) := by rw [pow_succ]; ring
        _ ≤ 2 ^ (bitLength X - 53) := Nat.pow_le_pow_right (by norm_num) hs'
    have hX0 : X ≠ 0 := by
      intro h0
      rw [h0] at hs'
      have : bitLength 0 = 0 := by decide
      omega
    have hPX : 2 ^ (bitLength X - 53) * 2 ^ 52 ≤ X := by
      have := bitLength_le X hX0
      have he : bitLength X - 53 + 52 = bitLength X - 1 := by omega
      rwa [← pow_add, he]
    have hKU : K * 2 ^ u ≤ (2 ^ 53 - 2) * 2 ^ u :=
      Nat.mul_le_mul_right _ (by omega)
    exact spacing_absurd _ _ _ _ hU hKU hPX hc2 hP

/-- C8, as the code has it: `toRay` and `toRad` do not round. They return when
the double product `v * 10^10` is an integer `K` below `MAX_SAFE`, the values
being `K * 10^17` and `K * 10^35` with `K` within one half of the exact
product; otherwise both raise the fault of `BigNumber.from`. -/
theorem scaling_value (n : Nat) :
    (∃ K : Nat, K < MAX_SAFE ∧
      (JSNumber.fin n).mul tenPow10 = JSNumber.fin (K * 2 ^ 1074) ∧
      toRay (JSNumber.fin n) = Except.ok ((K : Int) * 10 ^ 17) ∧
      toRad (JSNumber.fin n) = Except.ok ((K : Int) * 10 ^ 35) ∧
      2 * (K * 2 ^ 1074) ≤ 2 * (n * 10 ^ 10) + 2 ^ 1074 ∧
      2 * (n * 10 ^ 10) ≤ 2 * (K * 2 ^ 1074) + 2 ^ 1074) ∨
    (∃ f, toRay (JSNumber.fin n) = Except.error f ∧ toRad (JSNumber.fin n) = Except.error f ∧
      ∀ K, K < MAX_SAFE → (JSNumber.fin n).mul tenPow10 ≠ JSNumber.fin (K * 2 ^ 1074)) := by
  cases hb : bigNumberFrom ((JSNumber.fin n).mul tenPow10) with
  | error f =>
    right
    refine ⟨f, toRay_of_fault _ _ hb, toRad_of_fault _ _ hb, ?_⟩
    intro K hK hy
    rw [hy, bigNumberFrom_integer K hK] at hb
    cases hb
  | ok z =>
    left
    obtain ⟨K, hK, hy, hz⟩ := bigNumberFrom_ok _ _ hb
    subst hz
    refine ⟨K, hK, hy, toRay_of_scaled _ _ hb, toRad_of_scaled _ _ hb, ?_⟩
    rw [mul_tenPow10, ← Nat.mul_assoc] at hy
    exact round_to_integer_near (n * 10 ^ 10) 1074 K hK hy

/-- C1 fails as stated: `0.07` has two fractional digits and both conversions
raise, its double product with `10^10` being `700000000.0000001`;
`1000000` has none and both raise, the product reaching `MAX_SAFE`; and
`756346.4692609525` has ten and `toRay` returns a value that is off by one
unit of `10^17`. -/
theorem roundtrip_fails :
    toRay (ofDecimal 7 2) = Except.error Fault.underflow ∧
    toRad (ofDecimal 7 2) = Except.error Fault.underflow ∧
    toRay (ofDecimal 1000000 0) = Except.error Fault.overflow ∧
    toRad (ofDecimal 1000000 0) = Except.error Fault.overflow ∧
    toRay (ofDecimal 7563464692609525 10) = Except.ok (7563464692609526 * 10 ^ 17) := by
  decide!

/-- C8 fails as stated: `0.00000000005` has eleven fractional digits, its
product with `10^10` is not an integer, and both conversions raise instead of
returning a rounded value. -/
theorem scaling_raises :
    toRay (ofDecimal 5 11) = Except.error Fault.underflow ∧
    toRad (ofDecimal 5 11) = Except.error Fault.underflow := by
  decide!

/-! ## Stepping through the script -/

theorem bind_eq {α β : Type} (m : Script α) (f : α → Script β) :
    (m >>= f) = Script.bind m f := rfl

theorem pure_eq {α : Type} (a : α) : (pure a : Script α) = Script.pure a := rfl

theorem pure_bind_eq {α β : Type} (a : α) (f : α → Script β) :
    Script.bind (Script.pure a) f = f a := rfl

theorem bind_assoc_eq {α β γ : Type} (m : Script α) (g : α → Script β) (f : β → Script γ) :
    Script.bind (Script.bind m g) f = Script.bind m (fun a => Script.bind (g a) f) := by
  funext t
  unfold Script.bind
  rcases m t with ⟨t1, r⟩
  cases r <;> rfl

theorem derive_ok_bind {α : Type} (v : Int) (f : Int → Script α) :
    Script.bind (Script.derive (Except.ok v)) f = f v := rfl

theorem chaiGuard_false (network : String) : chaiGuard network = false := by
  unfold chaiGuard
  by_cases h : network = "mainnet"
  · subst h; decide
  · simp [h]

theorem shape_pure {α : Type} (a : α) (Q : List Event → α → Prop) (hQ : Q [] a) :
    Shape (Script.pure a) Q := by
  intro t
  exact ⟨[], a, hQ, Or.inl ⟨by simp [Script.pure], rfl⟩⟩

theorem follows_cons {α : Type} (out : Outcome α) (t : List Event) (e : Event)
    (plan : List Event) (res : α) (hf : Follows out (t ++ [e]) plan res) :
    Follows out t (e :: plan) res := by
  rcases hf with ⟨htr, hres⟩ | ⟨k, hk, htr, hres⟩
  · exact Or.inl ⟨by simpa using htr, hres⟩
  · exact Or.inr ⟨k + 1, by simpa using hk, by simpa [stopAt] using htr, by simpa [failureAt] using hres⟩

theorem shape_send_bind {α : Type} (h : Host) (c : Contract) (m : String) (args : List Val)
    (f : Unit → Script α) (Q : List Event → α → Prop)
    (hf : Shape (f ()) (fun p res => Q (Event.send c m args true :: p) res)) :
    Shape (Script.bind (Script.send h c m args) f) Q := by
  intro t
  cases hs : h.send t c m args with
  | true =>
    obtain ⟨plan, res, hq, hfol⟩ := hf (t ++ [Event.send c m args true])
    refine ⟨Event.send c m args true :: plan, res, hq, ?_⟩
    have hrun : Script.bind (Script.send h c m args) f t =
        f () (t ++ [Event.send c m args true]) := by
      simp [Script.bind, Script.send, hs]
    rw [hrun]
    exact follows_cons _ _ _ _ _ hfol
  | false =>
    obtain ⟨plan, res, hq, _⟩ := hf t
    refine ⟨Event.send c m args true :: plan, res, hq, Or.inr ⟨0, ?_, ?_, ?_⟩⟩
    · simp
    · simp [Script.bind, Script.send, hs, stopAt, Event.reject]
    · simp [Script.bind, Script.send, hs, failureAt, Event.reject]

theorem shape_deploy_bind {α : Type} (h : Host) (c : Contract) (args : List Val)
    (f : String → Script α) (Q : List Event → α → Prop)
    (hf : ∀ a, Shape (f a) (fun p res => Q (Event.deploy c args (some a) :: p) res)) :
    Shape (Script.bind (Script.deploy h c args) f) Q := by
  intro t
  cases hs : h.deploy t c args with
  | some a =>
    obtain ⟨plan, res, hq, hfol⟩ := hf a (t ++ [Event.deploy c args (some a)])
    refine ⟨Event.deploy c args (some a) :: plan, res, hq, ?_⟩
    have hrun : Script.bind (Script.deploy h c args) f t =
        f a (t ++ [Event.deploy c args (some a)]) := by
      simp [Script.bind, Script.deploy, hs]
    rw [hrun]
    exact follows_cons _ _ _ _ _ hfol
  | none =>
    obtain ⟨plan, res, hq, _⟩ := hf "" t
    refine ⟨Event.deploy c args (some "") :: plan, res, hq, Or.inr ⟨0, ?_, ?_, ?_⟩⟩
    · simp
    · simp [Script.bind, Script.deploy, hs, stopAt, Event.reject]
    · simp [Script.bind, Script.deploy, hs, failureAt, Event.reject]

theorem ofDecimal_zero : ofDecimal 0 0 = JSNumber.fin 0 := by decide!

theorem subBN_rate_one : subBN (125 * 10 ^ 25) (10 ^ 27) = 25 * 10 ^ 25 := by decide

theorem reuse_some (tbl : String → Option Entry) (network : String) (e : Entry)
    (he : tbl network = some e) : reuse tbl network = Script.pure (reuseVars e) := by
  simp [reuse, he, reuseVars, pure_eq]

theorem reuse_none (tbl : String → Option Entry) (network : String)
    (he : tbl network = none) : reuse tbl network = Script.fail Failure.typeError := by
  simp [reuse, he]

/-- Every bootstrap run follows the bootstrap plan and then the commit plan,
for the addresses the host hands out. -/
theorem run_development (h : Host) (tbl : String → Option Entry) :
    ∃ vat weth wethJoin dai daiJoin pot end_ chai,
      Follows (run h tbl "development") []
        (bootstrapPlan vat weth wethJoin dai daiJoin pot end_ ++
          commitPlan (bootstrapVars vat weth wethJoin dai daiJoin pot end_) chai)
        (deployedExternal { bootstrapVars vat weth wethJoin dai daiJoin pot end_ with
          chaiAddress := Val.str chai }) := by
  have hshape : Shape (migration h tbl "development") (fun plan res =>
      ∃ vat weth wethJoin dai daiJoin pot end_ chai,
        plan = bootstrapPlan vat weth wethJoin dai daiJoin pot end_ ++
          commitPlan (bootstrapVars vat weth wethJoin dai daiJoin pot end_) chai ∧
        res = deployedExternal { bootstrapVars vat weth wethJoin dai daiJoin pot end_ with
          chaiAddress := Val.str chai }) := by
    simp only [migration, bootstrap, chaiStep, commit, chaiGuard_false, if_true,
      Bool.false_eq_true, if_false, bind_eq, pure_eq, bind_assoc_eq, pure_bind_eq, toRad_10000,
      toRay_150, toRay_1_25, toRay_1_2, toRay_1, derive_ok_bind, ofDecimal_zero, subBN_rate_one,
      deployedExternal]
    repeat (first
      | apply shape_send_bind
      | (apply shape_deploy_bind; intro _))
    apply shape_pure
    exact ⟨_, _, _, _, _, _, _, _, rfl, rfl⟩
  obtain ⟨plan, res, ⟨vat, weth, wethJoin, dai, daiJoin, pot, end_, chai, rfl, rfl⟩, hf⟩ :=
    hshape []
  exact ⟨vat, weth, wethJoin, dai, daiJoin, pot, end_, chai, hf⟩

/-- Every run on another network whose entry exists follows the commit plan
for the addresses of the entry. -/
theorem run_reuse (h : Host) (tbl : String → Option Entry) (network : String) (e : Entry)
    (hne : network ≠ "development") (he : tbl network = some e) :
    ∃ chai, Follows (run h tbl network) [] (commitPlan (reuseVars e) chai)
      (deployedExternal { reuseVars e with chaiAddress := Val.str chai }) := by
  have hshape : Shape (migration h tbl network) (fun plan res =>
      ∃ chai, plan = commitPlan (reuseVars e) chai ∧
        res = deployedExternal { reuseVars e with chaiAddress := Val.str chai }) := by
    simp only [migration, if_neg hne, reuse_some tbl network e he, chaiStep, commit,
      chaiGuard_false, Bool.false_eq_true, if_false, bind_eq, pure_eq, bind_assoc_eq,
      pure_bind_eq, deployedExternal]
    repeat (first
      | apply shape_send_bind
      | (apply shape_deploy_bind; intro _))
    apply shape_pure
    exact ⟨_, rfl, rfl⟩
  obtain ⟨plan, res, ⟨chai, rfl, rfl⟩, hf⟩ := hshape []
  exact ⟨chai, hf⟩

/-- A run on another network whose entry is missing stops at the first read,
before anything is issued. -/
theorem run_missing (h : Host) (tbl : String → Option Entry) (network : String)
    (hne : network ≠ "development") (he : tbl network = none) :
    run h tbl network = ⟨[], Except.error Failure.typeError⟩ := by
  simp only [run, migration, if_neg hne, reuse_none tbl network he, bind_eq]
  rfl

theorem reject_reject (e : Event) : e.reject.reject = e.reject := by
  cases e <;> rfl

theorem stopAt_map_reject (plan : List Event) (k : Nat) :
    (stopAt plan k).map Event.reject <+: plan.map Event.reject := by
  induction plan generalizing k with
  | nil => simp [stopAt]
  | cons x xs ih =>
    cases k with
    | zero => simp [stopAt, reject_reject]
    | succ k => simpa [stopAt] using ih k

theorem Follows.issued {α : Type} {out : Outcome α} {plan : List Event} {res : α}
    (hf : Follows out [] plan res) : Issued plan out.trace := by
  rcases hf with ⟨htr, _⟩ | ⟨k, hk, htr, _⟩
  · exact Or.inl (by simpa using htr)
  · exact Or.inr ⟨k, hk, by simpa using htr⟩

theorem Follows.of_ok {α : Type} {out : Outcome α} {plan : List Event} {res d : α}
    (hf : Follows out [] plan res) (hok : out.result = Except.ok d) :
    out.trace = plan ∧ d = res := by
  rcases hf with ⟨htr, hres⟩ | ⟨k, _, _, hres⟩
  · rw [hres] at hok
    exact ⟨by simpa using htr, by cases hok; rfl⟩
  · rw [hres] at hok
    cases hok

theorem Issued.head {x y : Event} {xs tr : List Event} (h : Issued (x :: xs) (y :: tr)) :
    (y = x ∧ Issued xs tr) ∨ (y = x.reject ∧ tr = []) := by
  rcases h with h | ⟨k, hk, h⟩
  · simp only [List.cons.injEq] at h
    exact Or.inl ⟨h.1, Or.inl h.2⟩
  · cases k with
    | zero =>
      simp only [stopAt, List.cons.injEq] at h
      exact Or.inr h
    | succ k =>
      simp only [stopAt, List.cons.injEq] at h
      exact Or.inl ⟨h.1, Or.inr ⟨k, by simpa using hk, h.2⟩⟩

theorem Issued.map_reject {plan tr : List Event} (h : Issued plan tr) :
    tr.map Event.reject <+: plan.map Event.reject := by
  rcases h with h | ⟨k, _, h⟩
  · rw [h]
  · rw [h]
    exact stopAt_map_reject plan k

/-- Wherever a run is cut, what precedes the cut is the confirmed start of the
plan, the operation at the cut is the next one of the plan (confirmed or
rejected), and what follows continues the plan. -/
theorem Issued.split {plan tr pre post : List Event} {e : Event} (h : Issued plan tr)
    (hs : tr = pre ++ e :: post) :
    pre = plan.take pre.length ∧
    (∃ x, plan[pre.length]? = some x ∧ e.reject = x.reject) ∧
    post.map Event.reject <+: (plan.drop (pre.length + 1)).map Event.reject := by
  induction plan generalizing tr pre with
  | nil =>
    rcases h with h | ⟨k, hk, _⟩
    · rw [h] at hs
      simp at hs
    · simp at hk
  | cons x xs ih =>
    subst hs
    cases pre with
    | nil =>
      rcases Issued.head h with ⟨he, hi⟩ | ⟨he, hp⟩
      · subst he
        exact ⟨by simp, ⟨e, by simp, rfl⟩, by simpa using hi.map_reject⟩
      · subst he
        subst hp
        exact ⟨by simp, ⟨x, by simp, reject_reject x⟩, by simp⟩
    | cons y pre =>
      rcases Issued.head h with ⟨he, hi⟩ | ⟨_, hp⟩
      · subst he
        obtain ⟨h1, h2, h3⟩ := ih hi rfl
        refine ⟨?_, ?_, ?_⟩
        · simpa using h1
        · simpa using h2
        · simpa using h3
      · simp at hp

theorem isRely_reject (e : Event) : e.reject.isRely = e.isRely := by
  cases e <;> rfl

theorem isSimulation_reject (e : Event) : e.reject.isSimulation = e.isSimulation := by
  cases e <;> rfl

theorem isDeploy_reject (e : Event) : e.reject.isDeploy = e.isDeploy := by
  cases e <;> rfl

theorem isCoreDeploy_reject (e : Event) : e.reject.isCoreDeploy = e.isCoreDeploy := by
  cases e <;> rfl

theorem isRegister_reject (e : Event) : e.reject.isRegister = e.isRegister := by
  cases e <;> rfl

theorem isVatConfig_reject (e : Event) : e.reject.isVatConfig = e.isVatConfig := by
  cases e <;> rfl

theorem isEndConfig_reject (e : Event) : e.reject.isEndConfig = e.isEndConfig := by
  cases e <;> rfl

theorem filter_eq_nil_of_reject_prefix (p : Event → Bool) (hp : ∀ e, p e.reject = p e)
    {post l : List Event} (h : post.map Event.reject <+: l.map Event.reject)
    (hl : l.filter p = []) : post.filter p = [] := by
  rw [List.filter_eq_nil_iff] at hl ⊢
  intro y hy
  have hmem : y.reject ∈ l.map Event.reject := h.subset (List.mem_map_of_mem _ hy)
  obtain ⟨z, hz, hzy⟩ := List.mem_map.mp hmem
  have := hl z hz
  rw [← hp z, hzy, hp y] at this
  exact this

theorem stopAt_filter (p : Event → Bool) (hp : ∀ e, p e.reject = p e) (plan : List Event)
    (k : Nat) : Started (plan.filter p) ((stopAt plan k).filter p) := by
  induction plan generalizing k with
  | nil => exact ⟨0, Or.inl (by simp [stopAt])⟩
  | cons x xs ih =>
    cases k with
    | zero =>
      by_cases hx : p x = true
      · exact ⟨0, Or.inr ⟨by simp [hx], by simp [stopAt, hx, hp]⟩⟩
      · exact ⟨0, Or.inl (by simp [stopAt, hx, hp])⟩
    | succ k =>
      obtain ⟨j, hj⟩ := ih k
      by_cases hx : p x = true
      · rcases hj with hj | ⟨hlt, hj⟩
        · exact ⟨j + 1, Or.inl (by simp [stopAt, hx, hj])⟩
        · exact ⟨j + 1, Or.inr ⟨by simpa [hx] using hlt, by simp [stopAt, hx, hj]⟩⟩
      · rcases hj with hj | ⟨hlt, hj⟩
        · exact ⟨j, Or.inl (by simp [stopAt, hx, hj])⟩
        · exact ⟨j, Or.inr ⟨by simpa [hx] using hlt, by simp [stopAt, hx, hj]⟩⟩

theorem Issued.filter (p : Event → Bool) (hp : ∀ e, p e.reject = p e) {plan tr : List Event}
    (h : Issued plan tr) : Started (plan.filter p) (tr.filter p) := by
  rcases h with h | ⟨k, _, h⟩
  · exact ⟨(plan.filter p).length, Or.inl (by rw [h, List.take_length])⟩
  · rw [h]
    exact stopAt_filter p hp plan k

theorem Issued.head_reject {x : Event} {xs tr : List Event} (h : Issued (x :: xs) tr) :
    (tr.map Event.reject).head? = some x.reject := by
  rcases h with h | ⟨k, _, h⟩
  · rw [h]; rfl
  · cases k with
    | zero => rw [h]; simp [stopAt, reject_reject]
    | succ k => rw [h]; simp [stopAt]

theorem failureAt_ne_typeError (plan : List Event) (k : Nat) (hk : k < plan.length) :
    failureAt plan k ≠ Failure.typeError := by
  induction plan generalizing k with
  | nil => simp at hk
  | cons x xs ih =>
    cases k with
    | zero => simp [failureAt]
    | succ k => simpa [failureAt] using ih k (by simpa using hk)

/-- C3: in every run that completes, bootstrap or reuse, the register calls
are exactly eight, in the order Vat, Weth, WethJoin, Dai, DaiJoin, Pot, End,
Chai, each carrying the address resolved for its component: the address of the
deployment confirmed during the run in bootstrap mode, the value of the table
entry (and the deployed Chai) otherwise. -/
theorem registers_in_order (h : Host) (tbl : String → Option Entry) (network : String)
    (d : List (String × Val)) (hok : (run h tbl network).result = Except.ok d) :
    (run h tbl network).trace.filter Event.isRegister = d.map registerCall ∧
    d.map Prod.fst = ["Vat", "Weth", "WethJoin", "Dai", "DaiJoin", "Pot", "End", "Chai"] ∧
    (network = "development" →
      ∃ vat weth wethJoin dai daiJoin pot end_ chai : String,
        d.map Prod.snd = [Val.str vat, Val.str weth, Val.str wethJoin, Val.str dai,
          Val.str daiJoin, Val.str pot, Val.str end_, Val.str chai] ∧
        (run h tbl network).trace.filter Event.isDeploy =
          [Event.deploy Contract.Vat [] (some vat),
           Event.deploy Contract.Weth [] (some weth),
           Event.deploy Contract.GemJoin
             [Val.str vat, Val.str (fromAscii "ETH-A"), Val.str weth] (some wethJoin),
           Event.deploy Contract.Dai [Val.num (JSNumber.fin 0)] (some dai),
           Event.deploy Contract.DaiJoin [Val.str vat, Val.str dai] (some daiJoin),
           Event.deploy Contract.Pot [Val.str vat] (some pot),
           Event.deploy Contract.End [] (some end_),
           Event.deploy Contract.Chai
             [Val.str vat, Val.str pot, Val.str daiJoin, Val.str dai] (some chai)]) ∧
    (network ≠ "development" →
      ∃ e chai, tbl network = some e ∧
        d.map Prod.snd = [e.vatAddress, e.wethAddress, e.wethJoinAddress, e.daiAddress,
          e.daiJoinAddress, e.potAddress, e.endAddress, Val.str chai] ∧
        (run h tbl network).trace.filter Event.isDeploy =
          [Event.deploy Contract.Chai
             [e.vatAddress, e.potAddress, e.daiJoinAddress, e.daiAddress] (some chai)]) := by
  by_cases hdev : network = "development"
  · subst hdev
    obtain ⟨vat, weth, wethJoin, dai, daiJoin, pot, end_, chai, hf⟩ := run_development h tbl
    obtain ⟨htr, hd⟩ := hf.of_ok hok
    rw [htr, hd]
    refine ⟨?_, ?_, ?_, ?_⟩
    · simp [bootstrapPlan, commitPlan, bootstrapVars, deployedExternal, registerCall,
        Event.isRegister]
    · simp [deployedExternal]
    · intro _
      refine ⟨vat, weth, wethJoin, dai, daiJoin, pot, end_, chai, ?_, ?_⟩
      · simp [deployedExternal, bootstrapVars]
      · simp [bootstrapPlan, commitPlan, bootstrapVars, Event.isDeploy]
    · intro hne
      exact absurd rfl hne
  · cases he : tbl network with
    | none =>
      rw [run_missing h tbl network hdev he] at hok
      cases hok
    | some e =>
      obtain ⟨chai, hf⟩ := run_reuse h tbl network e hdev he
      obtain ⟨htr, hd⟩ := hf.of_ok hok
      rw [htr, hd]
      refine ⟨?_, ?_, ?_, ?_⟩
      · simp [commitPlan, reuseVars, deployedExternal, registerCall, Event.isRegister]
      · simp [deployedExternal]
      · intro hd
        exact absurd hd hdev
      · intro _
        refine ⟨e, chai, rfl, ?_, ?_⟩
        · simp [deployedExternal, reuseVars]
        · simp [commitPlan, reuseVars, Event.isDeploy]

theorem plan_length (vat weth wethJoin dai daiJoin pot end_ chai : String) :
    (bootstrapPlan vat weth wethJoin dai daiJoin pot end_ ++
      commitPlan (bootstrapVars vat weth wethJoin dai daiJoin pot end_) chai).length = 28 := by
  simp [bootstrapPlan, commitPlan]

/-- C9: in every bootstrap run, whenever a call of the simulation step
(`vat.fold` or `pot.setChi`) is issued, the five grants on the vault have been
issued and confirmed before it, for the addresses of the deployed Vat, GemJoin,
DaiJoin, Pot and End, no other grant was issued before it and none follows:
a rejected grant therefore leaves the simulation step unissued. -/
theorem grants_before_simulation (h : Host) (tbl : String → Option Entry)
    (pre post : List Event) (e : Event)
    (hsplit : (run h tbl "development").trace = pre ++ e :: post)
    (hsim : e.isSimulation = true) :
    ∃ vat weth wethJoin dai daiJoin pot end_ : String,
      Event.deploy Contract.Vat [] (some vat) ∈ pre ∧
      Event.deploy Contract.GemJoin
        [Val.str vat, Val.str (fromAscii "ETH-A"), Val.str weth] (some wethJoin) ∈ pre ∧
      Event.deploy Contract.DaiJoin [Val.str vat, Val.str dai] (some daiJoin) ∈ pre ∧
      Event.deploy Contract.Pot [Val.str vat] (some pot) ∈ pre ∧
      Event.deploy Contract.End [] (some end_) ∈ pre ∧
      pre.filter Event.isRely =
        [Event.send Contract.Vat "rely" [Val.str vat] true,
         Event.send Contract.Vat "rely" [Val.str wethJoin] true,
         Event.send Contract.Vat "rely" [Val.str daiJoin] true,
         Event.send Contract.Vat "rely" [Val.str pot] true,
         Event.send Contract.Vat "rely" [Val.str end_] true] ∧
      post.filter Event.isRely = [] := by
  obtain ⟨vat, weth, wethJoin, dai, daiJoin, pot, end_, chai, hf⟩ := run_development h tbl
  obtain ⟨hpre, ⟨x, hx, hex⟩, hpost⟩ := hf.issued.split hsplit
  refine ⟨vat, weth, wethJoin, dai, daiJoin, pot, end_, ?_⟩
  have hlen : pre.length < 28 := by
    have := (List.getElem?_eq_some_iff.mp hx).1
    rwa [plan_length] at this
  have hxs : x.isSimulation = true := by
    rw [← isSimulation_reject, ← hex, isSimulation_reject]
    exact hsim
  have hpost2 := filter_eq_nil_of_reject_prefix Event.isRely isRely_reject hpost
  generalize pre.length = i at hpre hx hlen hpost2
  rw [hpre]
  clear hpre hsplit hpost hf
  interval_cases i <;>
    simp [bootstrapPlan, commitPlan, bootstrapVars] at hx <;>
    subst hx <;>
    simp [Event.isSimulation] at hxs
  all_goals
    refine ⟨?_, ?_, ?_, ?_, ?_, ?_, hpost2 ?_⟩ <;>
    simp [bootstrapPlan, commitPlan, bootstrapVars, Event.isRely]

/-- C10, as the code has it: in every bootstrap run no grant precedes a
configuration call; `vat.init` and the three `vat.file` calls are issued when
the Vat deployment is the only deployment confirmed so far, hence before the
other six core deployments, and the `end.file` call is issued after the seven
core deployments have been confirmed. -/
theorem configuration_position (h : Host) (tbl : String → Option Entry)
    (pre post : List Event) (e : Event)
    (hsplit : (run h tbl "development").trace = pre ++ e :: post)
    (hcfg : e.isVatConfig = true ∨ e.isEndConfig = true) :
    ∃ vat weth wethJoin dai daiJoin pot end_ : String,
      pre.filter Event.isRely = [] ∧
      (e.isVatConfig = true →
        pre.filter Event.isDeploy = [Event.deploy Contract.Vat [] (some vat)]) ∧
      (e.isEndConfig = true →
        pre.filter Event.isDeploy =
          [Event.deploy Contract.Vat [] (some vat),
           Event.deploy Contract.Weth [] (some weth),
           Event.deploy Contract.GemJoin
             [Val.str vat, Val.str (fromAscii "ETH-A"), Val.str weth] (some wethJoin),
           Event.deploy Contract.Dai [Val.num (JSNumber.fin 0)] (some dai),
           Event.deploy Contract.DaiJoin [Val.str vat, Val.str dai] (some daiJoin),
           Event.deploy Contract.Pot [Val.str vat] (some pot),
           Event.deploy Contract.End [] (some end_)]) := by
  obtain ⟨vat, weth, wethJoin, dai, daiJoin, pot, end_, chai, hf⟩ := run_development h tbl
  obtain ⟨hpre, ⟨x, hx, hex⟩, _⟩ := hf.issued.split hsplit
  refine ⟨vat, weth, wethJoin, dai, daiJoin, pot, end_, ?_⟩
  have hlen : pre.length < 28 := by
    have := (List.getElem?_eq_some_iff.mp hx).1
    rwa [plan_length] at this
  have hv : e.isVatConfig = x.isVatConfig := by
    rw [← isVatConfig_reject, hex, isVatConfig_reject]
  have he : e.isEndConfig = x.isEndConfig := by
    rw [← isEndConfig_reject, hex, isEndConfig_reject]
  rw [hv, he] at hcfg
  rw [hv, he]
  generalize pre.length = i at hpre hx hlen
  rw [hpre]
  clear hpre hsplit hf hv he hex
  interval_cases i <;>
    simp [bootstrapPlan, commitPlan, bootstrapVars] at hx <;>
    subst hx <;>
    simp [Event.isVatConfig, Event.isEndConfig] at hcfg <;>
    simp [bootstrapPlan, commitPlan, bootstrapVars, Event.isRely, Event.isDeploy,
      Event.isVatConfig, Event.isEndConfig]

/-- C6: in every bootstrap run the core deployments issued are a start of the
sequence Vat, WETH9, GemJoin(vat, "ETH-A", weth), TestDai(0), DaiJoin(vat, dai),
Pot(vat), End, each address argument being the address the host gave to the
earlier deployment; a run that completes has issued exactly these seven. -/
theorem bootstrap_deploys (h : Host) (tbl : String → Option Entry) :
    ∃ vat weth wethJoin dai daiJoin pot end_ : String,
      Started
        [Event.deploy Contract.Vat [] (some vat),
         Event.deploy Contract.Weth [] (some weth),
         Event.deploy Contract.GemJoin
           [Val.str vat, Val.str (fromAscii "ETH-A"), Val.str weth] (some wethJoin),
         Event.deploy Contract.Dai [Val.num (JSNumber.fin 0)] (some dai),
         Event.deploy Contract.DaiJoin [Val.str vat, Val.str dai] (some daiJoin),
         Event.deploy Contract.Pot [Val.str vat] (some pot),
         Event.deploy Contract.End [] (some end_)]
        ((run h tbl "development").trace.filter Event.isCoreDeploy) ∧
      ∀ d, (run h tbl "development").result = Except.ok d →
        (run h tbl "development").trace.filter Event.isCoreDeploy =
          [Event.deploy Contract.Vat [] (some vat),
           Event.deploy Contract.Weth [] (some weth),
           Event.deploy Contract.GemJoin
             [Val.str vat, Val.str (fromAscii "ETH-A"), Val.str weth] (some wethJoin),
           Event.deploy Contract.Dai [Val.num (JSNumber.fin 0)] (some dai),
           Event.deploy Contract.DaiJoin [Val.str vat, Val.str dai] (some daiJoin),
           Event.deploy Contract.Pot [Val.str vat] (some pot),
           Event.deploy Contract.End [] (some end_)] := by
  obtain ⟨vat, weth, wethJoin, dai, daiJoin, pot, end_, chai, hf⟩ := run_development h tbl
  refine ⟨vat, weth, wethJoin, dai, daiJoin, pot, end_, ?_, ?_⟩
  · have := hf.issued.filter Event.isCoreDeploy isCoreDeploy_reject
    simpa [bootstrapPlan, commitPlan, bootstrapVars, Event.isCoreDeploy] using this
  · intro d hok
    rw [(hf.of_ok hok).1]
    simp [bootstrapPlan, commitPlan, bootstrapVars, Event.isCoreDeploy]

theorem Issued.mem_reject {plan tr : List Event} (h : Issued plan tr) {ev : Event}
    (hev : ev ∈ tr) : ev.reject ∈ plan.map Event.reject :=
  h.map_reject.subset (List.mem_map_of_mem _ hev)

theorem development_starts_with_vat (h : Host) (tbl : String → Option Entry) :
    ∃ r, Event.deploy Contract.Vat [] r ∈ (run h tbl "development").trace := by
  obtain ⟨vat, weth, wethJoin, dai, daiJoin, pot, end_, chai, hf⟩ := run_development h tbl
  have hhead := hf.issued
  simp only [bootstrapPlan, List.cons_append] at hhead
  have := hhead.head_reject
  cases htr : (run h tbl "development").trace with
  | nil => rw [htr] at this; simp at this
  | cons ev rest =>
    rw [htr] at this
    simp only [List.map_cons, List.head?_cons, Option.some.injEq] at this
    cases ev with
    | deploy c args r =>
      simp only [Event.reject, Event.deploy.injEq] at this
      obtain ⟨hc, ha, _⟩ := this
      subst hc; subst ha
      exact ⟨r, by simp⟩
    | send c m args ok => simp [Event.reject] at this

theorem reuse_never_deploys_vat (h : Host) (tbl : String → Option Entry) (network : String)
    (hne : network ≠ "development") (r : Option String) :
    Event.deploy Contract.Vat [] r ∉ (run h tbl network).trace := by
  intro hmem
  cases he : tbl network with
  | none =>
    rw [run_missing h tbl network hne he] at hmem
    simp at hmem
  | some e =>
    obtain ⟨chai, hf⟩ := run_reuse h tbl network e hne he
    have := hf.issued.mem_reject hmem
    simp [commitPlan, Event.reject] at this

/-- C5: the bootstrap branch is taken exactly when the network is
`development` (only then is a Vat deployment issued); on any other network
whose entry exists the only deployment issued is that of Chai, every method
call issued is a `migrations.register`, and the register calls issued are a
start of the eight of the commit loop, the seven core ones carrying the values
of the table entry. -/
theorem reuse_frame (h : Host) (tbl : String → Option Entry) (network : String) (e : Entry)
    (hne : network ≠ "development") (he : tbl network = some e) :
    (∀ n, (∃ r, Event.deploy Contract.Vat [] r ∈ (run h tbl n).trace) ↔ n = "development") ∧
    (∃ r, (run h tbl network).trace.filter Event.isDeploy =
      [Event.deploy Contract.Chai
        [e.vatAddress, e.potAddress, e.daiJoinAddress, e.daiAddress] r]) ∧
    (∀ c m args ok, Event.send c m args ok ∈ (run h tbl network).trace →
      c = Contract.Migrations ∧ m = "register") ∧
    ∃ chai : String,
      Started
        [registerCall ("Vat", e.vatAddress), registerCall ("Weth", e.wethAddress),
         registerCall ("WethJoin", e.wethJoinAddress), registerCall ("Dai", e.daiAddress),
         registerCall ("DaiJoin", e.daiJoinAddress), registerCall ("Pot", e.potAddress),
         registerCall ("End", e.endAddress), registerCall ("Chai", Val.str chai)]
        ((run h tbl network).trace.filter Event.isRegister) ∧
      ∀ d, (run h tbl network).result = Except.ok d →
        (run h tbl network).trace.filter Event.isRegister =
          [registerCall ("Vat", e.vatAddress), registerCall ("Weth", e.wethAddress),
           registerCall ("WethJoin", e.wethJoinAddress), registerCall ("Dai", e.daiAddress),
           registerCall ("DaiJoin", e.daiJoinAddress), registerCall ("Pot", e.potAddress),
           registerCall ("End", e.endAddress), registerCall ("Chai", Val.str chai)] := by
  obtain ⟨chai, hf⟩ := run_reuse h tbl network e hne he
  refine ⟨?_, ?_, ?_, chai, ?_, ?_⟩
  · intro n
    constructor
    · rintro ⟨r, hr⟩
      by_contra hn
      exact reuse_never_deploys_vat h tbl n hn r hr
    · rintro rfl
      exact development_starts_with_vat h tbl
  · rcases hf.issued with htr | ⟨k, hk, htr⟩
    · rw [htr]
      exact ⟨some chai, by simp [commitPlan, reuseVars, Event.isDeploy]⟩
    · rw [htr]
      have hk9 : k < 9 := by simpa [commitPlan] using hk
      interval_cases k <;>
        simp [commitPlan, reuseVars, stopAt, Event.reject, Event.isDeploy]
  · intro c m args ok hmem
    have := hf.issued.mem_reject hmem
    simp [commitPlan, Event.reject] at this
    rcases this with h1 | h1 | h1 | h1 | h1 | h1 | h1 | h1 <;> exact ⟨h1.1, h1.2.1⟩
  · have := hf.issued.filter Event.isRegister isRegister_reject
    simpa [commitPlan, reuseVars, Event.isRegister, registerCall] using this
  · intro d hok
    rw [(hf.of_ok hok).1]
    simp [commitPlan, reuseVars, Event.isRegister, registerCall]

/-- C7, as the code has it: the commit loop does not look at the address
before it calls `register`. A register call carrying an unset address is
issued only on a network other than `development`, for a core component whose
address the table entry lacks; the call is issued all the same, and either the
host confirms it or the run stops on the host's rejection of that very call. -/
theorem register_unset (h : Host) (tbl : String → Option Entry) (network : String)
    (name : Val) (ok : Bool)
    (hreg : Event.send Contract.Migrations "register" [name, Val.undefined] ok ∈
      (run h tbl network).trace) :
    network ≠ "development" ∧
    (∃ e, tbl network = some e ∧
      (name, Val.undefined) ∈
        [(Val.str (fromAscii "Vat"), e.vatAddress), (Val.str (fromAscii "Weth"), e.wethAddress),
         (Val.str (fromAscii "WethJoin"), e.wethJoinAddress),
         (Val.str (fromAscii "Dai"), e.daiAddress),
         (Val.str (fromAscii "DaiJoin"), e.daiJoinAddress),
         (Val.str (fromAscii "Pot"), e.potAddress),
         (Val.str (fromAscii "End"), e.endAddress)]) ∧
    (ok = true ∨ (run h tbl network).result = Except.error (Failure.rejected
      (Event.send Contract.Migrations "register" [name, Val.undefined] false))) := by
  by_cases hdev : network = "development"
  · subst hdev
    obtain ⟨vat, weth, wethJoin, dai, daiJoin, pot, end_, chai, hf⟩ := run_development h tbl
    have := hf.issued.mem_reject hreg
    simp [bootstrapPlan, commitPlan, bootstrapVars, Event.reject] at this
  · refine ⟨hdev, ?_⟩
    cases he : tbl network with
    | none =>
      rw [run_missing h tbl network hdev he] at hreg
      simp at hreg
    | some e =>
      obtain ⟨chai, hf⟩ := run_reuse h tbl network e hdev he
      constructor
      · refine ⟨e, rfl, ?_⟩
        have := hf.issued.mem_reject hreg
        simp [commitPlan, reuseVars, Event.reject] at this
        simp only [List.mem_cons, Prod.mk.injEq, List.mem_singleton]
        rcases this with h1 | h1 | h1 | h1 | h1 | h1 | h1
        · exact Or.inl ⟨h1.1, h1.2⟩
        · exact Or.inr (Or.inl ⟨h1.1, h1.2⟩)
        · exact Or.inr (Or.inr (Or.inl ⟨h1.1, h1.2⟩))
        · exact Or.inr (Or.inr (Or.inr (Or.inl ⟨h1.1, h1.2⟩)))
        · exact Or.inr (Or.inr (Or.inr (Or.inr (Or.inl ⟨h1.1, h1.2⟩))))
        · exact Or.inr (Or.inr (Or.inr (Or.inr (Or.inr (Or.inl ⟨h1.1, h1.2⟩)))))
        · exact Or.inr (Or.inr (Or.inr (Or.inr (Or.inr (Or.inr (Or.inl ⟨h1.1, h1.2⟩))))))
      · rcases hf with ⟨htr, _⟩ | ⟨k, hk, htr, hres⟩
        · rw [htr] at hreg
          left
          simp [commitPlan] at hreg
          rcases hreg with h1 | h1 | h1 | h1 | h1 | h1 | h1 <;> exact h1.2
        · rw [htr] at hreg
          rw [hres]
          have hk9 : k < 9 := by simpa [commitPlan] using hk
          cases ok with
          | true => exact Or.inl rfl
          | false =>
            right
            interval_cases k <;>
              simp [commitPlan, reuseVars, stopAt, failureAt, Event.reject] at hreg ⊢ <;>
              simp [hreg]

/-- C4: the guard of the Chai step is false on every network, so the step
always issues the deployment of Chai with the arguments (vat, pot, daiJoin,
dai) in that order, whatever the table records; in a run that completes the
Chai address registered and returned is the address just deployed. -/
theorem chai_always_deployed (h : Host) (tbl : String → Option Entry) (network : String)
    (d : List (String × Val)) (hok : (run h tbl network).result = Except.ok d) :
    (∀ n, chaiGuard n = false) ∧
    (∀ v t, (chaiStep h tbl network v t).trace =
      t ++ [Event.deploy Contract.Chai
        [v.vatAddress, v.potAddress, v.daiJoinAddress, v.daiAddress]
        (h.deploy t Contract.Chai
          [v.vatAddress, v.potAddress, v.daiJoinAddress, v.daiAddress])]) ∧
    ∃ (vat weth wethJoin dai daiJoin pot end_ : Val) (chai : String),
      d = [("Vat", vat), ("Weth", weth), ("WethJoin", wethJoin), ("Dai", dai),
        ("DaiJoin", daiJoin), ("Pot", pot), ("End", end_), ("Chai", Val.str chai)] ∧
      (run h tbl network).trace.filter Event.isChaiDeploy =
        [Event.deploy Contract.Chai [vat, pot, daiJoin, dai] (some chai)] ∧
      registerCall ("Chai", Val.str chai) ∈ (run h tbl network).trace := by
  refine ⟨chaiGuard_false, ?_, ?_⟩
  · intro v t
    simp only [chaiStep, chaiGuard_false, Bool.false_eq_true, if_false, bind_eq, pure_eq]
    unfold Script.bind Script.deploy Script.pure
    cases h.deploy t Contract.Chai
      [v.vatAddress, v.potAddress, v.daiJoinAddress, v.daiAddress] <;> rfl
  · by_cases hdev : network = "development"
    · subst hdev
      obtain ⟨vat, weth, wethJoin, dai, daiJoin, pot, end_, chai, hf⟩ := run_development h tbl
      obtain ⟨htr, hd⟩ := hf.of_ok hok
      rw [htr, hd]
      exact ⟨Val.str vat, Val.str weth, Val.str wethJoin, Val.str dai, Val.str daiJoin,
        Val.str pot, Val.str end_, chai,
        by simp [deployedExternal, bootstrapVars],
        by simp [bootstrapPlan, commitPlan, bootstrapVars, Event.isChaiDeploy],
        by simp [bootstrapPlan, commitPlan, bootstrapVars, registerCall]⟩
    · cases he : tbl network with
      | none =>
        rw [run_missing h tbl network hdev he] at hok
        cases hok
      | some e =>
        obtain ⟨chai, hf⟩ := run_reuse h tbl network e hdev he
        obtain ⟨htr, hd⟩ := hf.of_ok hok
        rw [htr, hd]
        exact ⟨e.vatAddress, e.wethAddress, e.wethJoinAddress, e.daiAddress,
          e.daiJoinAddress, e.potAddress, e.endAddress, chai,
          by simp [deployedExternal, reuseVars],
          by simp [commitPlan, reuseVars, Event.isChaiDeploy],
          by simp [commitPlan, reuseVars, registerCall]⟩

/-- C2, as the code has it: on a network other than `development` that is
absent from the table the run stops on the first read of the entry, with the
TypeError of a property read on `undefined`, before anything is issued. When
the entry exists nothing checks its addresses: the run does not stop there and
its first operation is the deployment of Chai with the addresses as read. -/
theorem missing_entry (h : Host) (tbl : String → Option Entry) (network : String)
    (hne : network ≠ "development") :
    (tbl network = none →
      (run h tbl network).trace = [] ∧
      (run h tbl network).result = Except.error Failure.typeError) ∧
    (∀ e, tbl network = some e →
      (run h tbl network).result ≠ Except.error Failure.typeError ∧
      ∃ r, (run h tbl network).trace.head? = some (Event.deploy Contract.Chai
        [e.vatAddress, e.potAddress, e.daiJoinAddress, e.daiAddress] r)) := by
  constructor
  · intro he
    rw [run_missing h tbl network hne he]
    exact ⟨rfl, rfl⟩
  · intro e he
    obtain ⟨chai, hf⟩ := run_reuse h tbl network e hne he
    constructor
    · rcases hf with ⟨_, hres⟩ | ⟨k, hk, _, hres⟩
      · rw [hres]
        simp
      · rw [hres]
        intro hcontra
        exact failureAt_ne_typeError _ k hk (Except.error.inj hcontra)
    · have hi := hf.issued
      simp only [commitPlan] at hi
      have hhead := hi.head_reject
      cases htr : (run h tbl network).trace with
      | nil => rw [htr] at hhead; simp at hhead
      | cons ev rest =>
        rw [htr] at hhead
        simp only [List.map_cons, List.head?_cons, Option.some.injEq] at hhead
        cases ev with
        | deploy c args r =>
          simp only [Event.reject, Event.deploy.injEq] at hhead
          obtain ⟨hc, ha, _⟩ := hhead
          subst hc; subst ha
          exact ⟨r, by simp [reuseVars]⟩
        | send c m args ok => simp [Event.reject] at hhead

/-- C2 fails as stated: the `kovan` entry of the sample table lacks
`vatAddress`, yet the run on a confirming host completes, its first operation
being the deployment of Chai with the unset address. -/
theorem missing_core_address_not_detected :
    sampleTable "kovan" = some lackingEntry ∧
    lackingEntry.vatAddress = Val.undefined ∧
    (run confirmingHost sampleTable "kovan").trace.head? =
      some (Event.deploy Contract.Chai
        [Val.undefined, Val.str "0xB6", Val.str "0xB5", Val.str "0xB4"] (some "0xA8")) ∧
    (run confirmingHost sampleTable "kovan").result =
      Except.ok [("Vat", Val.undefined), ("Weth", Val.str "0xB2"), ("WethJoin", Val.str "0xB3"),
        ("Dai", Val.str "0xB4"), ("DaiJoin", Val.str "0xB5"), ("Pot", Val.str "0xB6"),
        ("End", Val.str "0xB7"), ("Chai", Val.str "0xA8")] := by
  decide!

/-- Witness of `missing_entry`: `ropsten` is absent from the sample table. -/
theorem missing_entry_witness :
    "ropsten" ≠ "development" ∧ sampleTable "ropsten" = none ∧
    (run confirmingHost sampleTable "ropsten").trace = [] ∧
    (run confirmingHost sampleTable "ropsten").result = Except.error Failure.typeError :=
  ⟨by decide, by decide,
    (missing_entry confirmingHost sampleTable "ropsten" (by decide)).1 (by decide)⟩

/-- C7 fails as stated: with the `kovan` entry lacking `vatAddress`, the
register call for Vat is issued with the unset address and the run completes. -/
theorem register_issued_with_unset_address :
    Event.send Contract.Migrations "register" [Val.str (fromAscii "Vat"), Val.undefined] true ∈
      (run confirmingHost sampleTable "kovan").trace ∧
    (run confirmingHost sampleTable "kovan").result =
      Except.ok [("Vat", Val.undefined), ("Weth", Val.str "0xB2"), ("WethJoin", Val.str "0xB3"),
        ("Dai", Val.str "0xB4"), ("DaiJoin", Val.str "0xB5"), ("Pot", Val.str "0xB6"),
        ("End", Val.str "0xB7"), ("Chai", Val.str "0xA8")] := by
  decide!

/-- C10 fails as stated: on a confirming host `vat.init` is the second
operation of the bootstrap and the WETH9 deployment the sixth. -/
theorem init_precedes_weth_deploy :
    (run confirmingHost sampleTable "development").trace[1]? =
      some (Event.send Contract.Vat "init" [Val.str (fromAscii "ETH-A")] true) ∧
    (run confirmingHost sampleTable "development").trace[5]? =
      some (Event.deploy Contract.Weth [] (some "0xA4")) := by
  decide!

/-- Witness of `registers_in_order`: the bootstrap run on a confirming host. -/
theorem registers_in_order_witness :
    (run confirmingHost sampleTable "development").result =
      Except.ok [("Vat", Val.str "0xA1"), ("Weth", Val.str "0xA4"), ("WethJoin", Val.str "0xA2"),
        ("Dai", Val.str "0xA5"), ("DaiJoin", Val.str "0xA3"), ("Pot", Val.str "0xA6"),
        ("End", Val.str "0xA7"), ("Chai", Val.str "0xA8")] ∧
    (run confirmingHost sampleTable "development").trace.filter Event.isRegister =
      [("Vat", Val.str "0xA1"), ("Weth", Val.str "0xA4"), ("WethJoin", Val.str "0xA2"),
        ("Dai", Val.str "0xA5"), ("DaiJoin", Val.str "0xA3"), ("Pot", Val.str "0xA6"),
        ("End", Val.str "0xA7"), ("Chai", Val.str "0xA8")].map registerCall := by
  have hok : (run confirmingHost sampleTable "development").result =
      Except.ok [("Vat", Val.str "0xA1"), ("Weth", Val.str "0xA4"), ("WethJoin", Val.str "0xA2"),
        ("Dai", Val.str "0xA5"), ("DaiJoin", Val.str "0xA3"), ("Pot", Val.str "0xA6"),
        ("End", Val.str "0xA7"), ("Chai", Val.str "0xA8")] := by decide!
  exact ⟨hok, (registers_in_order confirmingHost sampleTable "development" _ hok).1⟩

/-- Witness of `chai_always_deployed`: on `mainnet` the table records the Chai
address `0xB8`, and the address returned is the deployed one, `0xA8`. -/
theorem chai_always_deployed_witness :
    fullEntry.chaiAddress = Val.str "0xB8" ∧
    (run confirmingHost sampleTable "mainnet").result =
      Except.ok [("Vat", Val.str "0xB1"), ("Weth", Val.str "0xB2"), ("WethJoin", Val.str "0xB3"),
        ("Dai", Val.str "0xB4"), ("DaiJoin", Val.str "0xB5"), ("Pot", Val.str "0xB6"),
        ("End", Val.str "0xB7"), ("Chai", Val.str "0xA8")] ∧
    chaiGuard "mainnet" = false := by
  have hok : (run confirmingHost sampleTable "mainnet").result =
      Except.ok [("Vat", Val.str "0xB1"), ("Weth", Val.str "0xB2"), ("WethJoin", Val.str "0xB3"),
        ("Dai", Val.str "0xB4"), ("DaiJoin", Val.str "0xB5"), ("Pot", Val.str "0xB6"),
        ("End", Val.str "0xB7"), ("Chai", Val.str "0xA8")] := by decide!
  exact ⟨by decide, hok,
    (chai_always_deployed confirmingHost sampleTable "mainnet" _ hok).1 "mainnet"⟩

/-- Witness of `reuse_frame`: the run on `mainnet` with its complete entry. -/
theorem reuse_frame_witness :
    "mainnet" ≠ "development" ∧ sampleTable "mainnet" = some fullEntry ∧
    ∃ r, (run confirmingHost sampleTable "mainnet").trace.filter Event.isDeploy =
      [Event.deploy Contract.Chai
        [fullEntry.vatAddress, fullEntry.potAddress, fullEntry.daiJoinAddress,
          fullEntry.daiAddress] r] :=
  ⟨by decide, by decide,
    (reuse_frame confirmingHost sampleTable "mainnet" fullEntry (by decide) (by decide)).2.1⟩

/-- Witness of `register_unset`: the register call for Vat on `kovan`. -/
theorem register_unset_witness :
    Event.send Contract.Migrations "register" [Val.str (fromAscii "Vat"), Val.undefined] true ∈
      (run confirmingHost sampleTable "kovan").trace ∧
    "kovan" ≠ "development" := by
  have hreg : Event.send Contract.Migrations "register"
      [Val.str (fromAscii "Vat"), Val.undefined] true ∈
      (run confirmingHost sampleTable "kovan").trace := by decide!
  exact ⟨hreg, (register_unset confirmingHost sampleTable "kovan" _ true hreg).1⟩

/-- Witness of `grants_before_simulation`: the bootstrap run on a confirming
host, cut at its call of `vat.fold`. -/
theorem grants_before_simulation_witness :
    (run confirmingHost sampleTable "development").trace =
      (run confirmingHost sampleTable "development").trace.take 17 ++
        Event.send Contract.Vat "fold"
          [Val.str (fromAscii "ETH-A"), Val.str "0xA1", Val.big (25 * 10 ^ 25)] true ::
        (run confirmingHost sampleTable "development").trace.drop 18 ∧
    (Event.send Contract.Vat "fold"
      [Val.str (fromAscii "ETH-A"), Val.str "0xA1", Val.big (25 * 10 ^ 25)] true).isSimulation =
      true ∧
    ((run confirmingHost sampleTable "development").trace.drop 18).filter Event.isRely = [] := by
  have hsplit : (run confirmingHost sampleTable "development").trace =
      (run confirmingHost sampleTable "development").trace.take 17 ++
        Event.send Contract.Vat "fold"
          [Val.str (fromAscii "ETH-A"), Val.str "0xA1", Val.big (25 * 10 ^ 25)] true ::
        (run confirmingHost sampleTable "development").trace.drop 18 := by decide!
  have hsim : (Event.send Contract.Vat "fold"
      [Val.str (fromAscii "ETH-A"), Val.str "0xA1", Val.big (25 * 10 ^ 25)] true).isSimulation =
      true := by decide
  obtain ⟨_, _, _, _, _, _, _, _, _, _, _, _, _, hpost⟩ :=
    grants_before_simulation confirmingHost sampleTable _ _ _ hsplit hsim
  exact ⟨hsplit, hsim, hpost⟩

/-- Witness of `configuration_position`: the bootstrap run on a confirming
host, cut at its call of `vat.init`. -/
theorem configuration_position_witness :
    (run confirmingHost sampleTable "development").trace =
      (run confirmingHost sampleTable "development").trace.take 1 ++
        Event.send Contract.Vat "init" [Val.str (fromAscii "ETH-A")] true ::
        (run confirmingHost sampleTable "development").trace.drop 2 ∧
    (Event.send Contract.Vat "init" [Val.str (fromAscii "ETH-A")] true).isVatConfig = true ∧
    ((run confirmingHost sampleTable "development").trace.take 1).filter Event.isRely = [] := by
  have hsplit : (run confirmingHost sampleTable "development").trace =
      (run confirmingHost sampleTable "development").trace.take 1 ++
        Event.send Contract.Vat "init" [Val.str (fromAscii "ETH-A")] true ::
        (run confirmingHost sampleTable "development").trace.drop 2 := by decide!
  have hcfg : (Event.send Contract.Vat "init"
      [Val.str (fromAscii "ETH-A")] true).isVatConfig = true := by decide
  obtain ⟨_, _, _, _, _, _, _, hrely, _, _⟩ :=
    configuration_position confirmingHost sampleTable _ _ _ hsplit (Or.inl hcfg)
  exact ⟨hsplit, hcfg, hrely⟩

end Vault
